import Mathlib

/-!
# Scribbo game server: shallow embedding and verification

This file embeds the authoritative game server of the Scribbo repository
(`src/server.py`, transport helpers in `src/utils.py`) as executable Lean
definitions and proves the specification claims about it.

Modelling conventions:
* Python `dict`s (insertion ordered, unique keys) become association lists
  with `dictInsert` (replace in place or append) and `dictDelete`.
* Sockets become abstract connection identifiers (`Nat`).
* JSON message fields that may be absent become `Option` arguments.
* Python floats used for coverage percentages become `Rat` (only order
  comparisons against the literal `50.0` occur, which `Rat` models exactly).
* The byte stream read by `recv` is a list of byte values; a `recv n` call
  returns up to `n` bytes from the front of the stream.
-/

namespace Scribbo

/-- Association-list lookup with decidable key equality, mirroring Python
`d[k]` / `k in d` on an insertion-ordered dict. -/
def dictLookup {α β : Type} [DecidableEq α] (k : α) : List (α × β) → Option β
  | [] => none
  | (k', v) :: rest => if k' = k then some v else dictLookup k rest

/-- Association-list insertion mirroring Python `d[k] = v`: replaces the
binding in place when the key is present, otherwise appends. -/
def dictInsert {α β : Type} [DecidableEq α] (k : α) (v : β) : List (α × β) → List (α × β)
  | [] => [(k, v)]
  | (k', v') :: rest => if k' = k then (k, v) :: rest else (k', v') :: dictInsert k v rest

/-- Association-list deletion mirroring Python `del d[k]` (on a
unique-key dict it removes exactly the binding of `k`). -/
def dictDelete {α β : Type} [DecidableEq α] (k : α) (l : List (α × β)) : List (α × β) :=
  l.filter (fun e => e.1 ≠ k)

/-- Entry of `game_state["players"]`: `{name, color, score}`. -/
structure PlayerInfo where
  name : String
  color : String
  score : Nat
deriving Repr, DecidableEq

/-- Entry of `self.clients`: client info bound to a connection
(`player_id`, `name`, `color`; the socket address is dropped). -/
structure ClientInfo where
  player_id : Nat
  name : String
  color : String
deriving Repr, DecidableEq

/-- The server state: `self.game_state` together with `self.clients` and
`self.next_player_id` from `ScribboServer.__init__`.  Board cells hold
`none` (empty) or `some player_id` (owned).  `active_squares` is keyed by
the `(row, col)` integers taken from client messages. -/
structure GameState where
  board : List (List (Option Nat))
  active_squares : List ((Int × Int) × Nat)
  players : List (Nat × PlayerInfo)
  game_started : Bool
  game_ended : Bool
  winner : Option Nat
  clients : List (Nat × ClientInfo)
  next_player_id : Nat
deriving Repr, DecidableEq

/-- `self.player_colors`. -/
def player_colors : List String :=
  ["red", "blue", "green", "yellow", "purple", "orange", "pink", "cyan"]

/-- The freshly constructed server state. -/
def initState : GameState :=
  { board := List.replicate 8 (List.replicate 8 none)
    active_squares := []
    players := []
    game_started := false
    game_ended := false
    winner := none
    clients := []
    next_player_id := 1 }

/-- Read `board[r][c]` (out-of-range reads yield `none`; on reachable
states all accesses are in range). -/
def boardGet (b : List (List (Option Nat))) (r c : Nat) : Option Nat :=
  (b.getD r []).getD c none

/-- Write `board[r][c] = v` (out-of-range writes are no-ops; on reachable
states all accesses are in range). -/
def boardSet (b : List (List (Option Nat))) (r c : Nat) (v : Option Nat) :
    List (List (Option Nat)) :=
  b.set r ((b.getD r []).set c v)

/-- The closed set of responses the server handlers return; each error
constructor stands for one distinct error message string of `server.py`. -/
inductive Resp where
  /-- `"Game is full"` -/
  | errGameFull
  /-- `"Game has ended"` -/
  | errGameEnded
  /-- `"Not connected"` -/
  | errNotConnected
  /-- `"Invalid square coordinates"` -/
  | errInvalidCoords
  /-- `"Square is already owned"` -/
  | errSquareOwned
  /-- `"Square is currently being drawn on by another player"` -/
  | errSquareLocked
  /-- `"Square is not active for drawing"` -/
  | errNotActive
  /-- `"You are not authorized to draw/finish drawing in this square"` -/
  | errNotAuthorized
  /-- `"join_success"` with assigned id and color -/
  | joinSuccess (player_id : Nat) (color : String)
  /-- `"start_drawing_success"` -/
  | startDrawingSuccess (row col : Int)
  /-- `"drawing_data_received"` -/
  | drawingDataReceived
  /-- `"square_captured"` (winner is `none` unless `game_over`) -/
  | squareCaptured (row col : Int) (player_id : Nat) (coverage : Rat)
      (game_over : Bool) (winner : Option Nat)
  /-- `"square_failed"` -/
  | squareFailed (row col : Int) (player_id : Nat) (coverage : Rat)
deriving Repr, DecidableEq

/-- `ScribboServer.handle_join`. -/
def handle_join (s : GameState) (conn : Nat) (name : String) : Resp × GameState :=
  if s.clients.length ≥ 8 then (.errGameFull, s)
  else if s.game_ended then (.errGameEnded, s)
  else
    let player_id := s.next_player_id
    let player_color := player_colors.getD (s.clients.length % player_colors.length) ""
    let clients' := dictInsert conn ⟨player_id, name, player_color⟩ s.clients
    let players' := dictInsert player_id ⟨name, player_color, 0⟩ s.players
    let started' := if clients'.length = 1 then true else s.game_started
    (.joinSuccess player_id player_color,
      { s with clients := clients', players := players',
               next_player_id := s.next_player_id + 1, game_started := started' })

/-- `ScribboServer.handle_start_drawing`.  `row`/`col` are the raw message
fields (`message.get` may yield `None`). -/
def handle_start_drawing (s : GameState) (conn : Nat) (row col : Option Int) :
    Resp × GameState :=
  match dictLookup conn s.clients with
  | none => (.errNotConnected, s)
  | some ci =>
    match row, col with
    | some r, some c =>
      if 0 ≤ r ∧ r < 8 ∧ 0 ≤ c ∧ c < 8 then
        if (boardGet s.board r.toNat c.toNat).isSome then (.errSquareOwned, s)
        else
          match dictLookup (r, c) s.active_squares with
          | some p =>
            if p ≠ ci.player_id then (.errSquareLocked, s)
            else (.startDrawingSuccess r c,
              { s with active_squares := dictInsert (r, c) ci.player_id s.active_squares })
          | none => (.startDrawingSuccess r c,
              { s with active_squares := dictInsert (r, c) ci.player_id s.active_squares })
      else (.errInvalidCoords, s)
    | _, _ => (.errInvalidCoords, s)

/-- `ScribboServer.handle_drawing_data`: validates the lock and forwards
the stroke data for broadcast; never mutates state. -/
def handle_drawing_data (s : GameState) (conn : Nat) (row col : Option Int) :
    Resp × GameState :=
  match dictLookup conn s.clients with
  | none => (.errNotConnected, s)
  | some ci =>
    match row, col with
    | some r, some c =>
      match dictLookup (r, c) s.active_squares with
      | none => (.errNotActive, s)
      | some p =>
        if p ≠ ci.player_id then (.errNotAuthorized, s)
        else (.drawingDataReceived, s)
    | _, _ => (.errNotActive, s)

/-- `ScribboServer.check_game_over`: true when no board cell is `None`. -/
def check_game_over (board : List (List (Option Nat))) : Bool :=
  board.all fun row => row.all fun cell => cell.isSome

/-- Increment `players[player_id]["score"]` (total: a no-op when the id is
absent, which cannot happen at the call sites on reachable states). -/
def bumpScore (pid : Nat) : List (Nat × PlayerInfo) → List (Nat × PlayerInfo)
  | [] => []
  | (k, v) :: rest =>
    if k = pid then (k, { v with score := v.score + 1 }) :: rest
    else (k, v) :: bumpScore pid rest

/-- `ScribboServer.calculate_winner`: the unique holder of the maximum
score, or `none` on a tie (paired with the maximum score). -/
def calculate_winner (players : List (Nat × PlayerInfo)) : Option Nat × Nat :=
  match players with
  | [] => (none, 0)
  | _ =>
    let max_score := players.foldl (fun acc p => max acc p.2.score) 0
    let winners := (players.filter (fun p => p.2.score = max_score)).map Prod.fst
    (match winners with
     | [w] => some w
     | _ => none, max_score)

/-- `ScribboServer.handle_finish_drawing`.  `coverage` is the raw message
field; `message.get("coverage", 0)` defaults it to `0`. -/
def handle_finish_drawing (s : GameState) (conn : Nat) (row col : Option Int)
    (coverage : Option Rat) : Resp × GameState :=
  match dictLookup conn s.clients with
  | none => (.errNotConnected, s)
  | some ci =>
    let coverage_percentage := coverage.getD 0
    match row, col with
    | some r, some c =>
      match dictLookup (r, c) s.active_squares with
      | none => (.errNotActive, s)
      | some p =>
        if p ≠ ci.player_id then (.errNotAuthorized, s)
        else
          let s1 := { s with active_squares := dictDelete (r, c) s.active_squares }
          if 50 ≤ coverage_percentage then
            let s2 := { s1 with
              board := boardSet s1.board r.toNat c.toNat (some ci.player_id),
              players := bumpScore ci.player_id s1.players }
            let game_over := check_game_over s2.board
            if game_over then
              let w := (calculate_winner s2.players).1
              (.squareCaptured r c ci.player_id coverage_percentage true w,
                { s2 with game_ended := true, winner := w })
            else
              (.squareCaptured r c ci.player_id coverage_percentage false none, s2)
          else
            (.squareFailed r c ci.player_id coverage_percentage, s1)
    | _, _ => (.errNotActive, s)

/-- `ScribboServer.disconnect_client`: frees the player active squares,
removes the player and the connection; owned board cells persist. -/
def disconnect_client (s : GameState) (conn : Nat) : GameState :=
  match dictLookup conn s.clients with
  | none => s
  | some ci =>
    { s with
      active_squares := s.active_squares.filter (fun e => e.2 ≠ ci.player_id)
      players := dictDelete ci.player_id s.players
      clients := dictDelete conn s.clients }

/-- The operations a client session can drive against the shared state. -/
inductive Op where
  | join (conn : Nat) (name : String)
  | startDrawing (conn : Nat) (row col : Option Int)
  | drawingData (conn : Nat) (row col : Option Int)
  | finishDrawing (conn : Nat) (row col : Option Int) (coverage : Option Rat)
  | disconnect (conn : Nat)
deriving Repr, DecidableEq

/-- State transition of one operation (response discarded). -/
def applyOp (s : GameState) : Op → GameState
  | .join conn name => (handle_join s conn name).2
  | .startDrawing conn row col => (handle_start_drawing s conn row col).2
  | .drawingData conn row col => (handle_drawing_data s conn row col).2
  | .finishDrawing conn row col cov => (handle_finish_drawing s conn row col cov).2
  | .disconnect conn => disconnect_client s conn

/-- Run a sequence of operations from a state. -/
def runOps (s : GameState) (ops : List Op) : GameState :=
  ops.foldl applyOp s

/-- A state is reachable when some operation sequence produces it from the
freshly constructed server. -/
def Reachable (s : GameState) : Prop :=
  ∃ ops : List Op, runOps initState ops = s

/-! ## Framed transport (`src/utils.py`) -/

/-- Modelled from the spec: `MAX_MESSAGE_SIZE` lives on `MessageProtocol`
in the `protocol` module, which is not present under `src/`; the spec
fixes the limit at 4096 bytes (and the sibling `protocol_gui.py` in the
repository also sets `MAX_MESSAGE_SIZE = 4096`). -/
def MAX_MESSAGE_SIZE : Nat := 4096

/-- Big-endian 4-byte encoding of a length (`struct.pack` with format
`!I`). -/
def lenBytes4 (n : Nat) : List Nat :=
  [n / 16777216 % 256, n / 65536 % 256, n / 256 % 256, n % 256]

/-- Big-endian decoding of the 4 header bytes (`struct.unpack` with
format `!I`). -/
def bytesToLen : List Nat → Nat
  | [a, b, c, d] => ((a * 256 + b) * 256 + c) * 256 + d
  | _ => 0

/-- Outcome of `send_message_frame`: either the size error (nothing is
written) or the byte sequence passed to `sock.sendall`. -/
inductive SendResult where
  | tooLarge
  | sent (bytes : List Nat)
deriving Repr, DecidableEq

/-- `send_message_frame`, applied to the serialized payload bytes
(`json.dumps(message_dict).encode` is the callers concern): rejects
oversize payloads before writing, otherwise writes the 4-byte length
header followed by the payload. -/
def send_message_frame (data : List Nat) : SendResult :=
  if data.length > MAX_MESSAGE_SIZE then .tooLarge
  else .sent (lenBytes4 data.length ++ data)

/-- Outcome of `recv_message_frame`: `closed` is the `None` return
(connection closed / incomplete data), `tooLarge` the size `ValueError`,
`malformed` the JSON-decode `ValueError`, `msg` a decoded message. -/
inductive RecvResult (α : Type) where
  | closed
  | tooLarge (declared : Nat)
  | malformed
  | msg (m : α)
deriving Repr, DecidableEq

/-- The payload read loop of `recv_message_frame`: keep calling
`sock.recv(msg_len - len(data))` until `msg_len` bytes have accumulated,
returning `none` when a recv call yields no bytes (connection lost).
A recv call takes up to the requested count from the front of the
stream. -/
def recvLoop (stream : List Nat) (msg_len : Nat) (data : List Nat) :
    Option (List Nat) :=
  if h : data.length < msg_len then
    if hp : stream.take (msg_len - data.length) = [] then none
    else recvLoop (stream.drop (msg_len - data.length)) msg_len
           (data ++ stream.take (msg_len - data.length))
  else some data
termination_by msg_len - data.length
decreasing_by
  have hlen : 0 < (stream.take (msg_len - data.length)).length :=
    List.length_pos.mpr hp
  simp only [List.length_append]
  omega

/-- `recv_message_frame`: read the 4 header bytes (`None` if the peer
closed or the header is incomplete), decode the big-endian length, reject
oversize frames, then read exactly that many payload bytes and
deserialize.  The JSON deserializer is passed in as `decode` (an
arbitrary pure decoder standing for `json.loads`). -/
def recv_message_frame {α : Type} (decode : List Nat → Option α)
    (stream : List Nat) : RecvResult α :=
  let raw_len := stream.take 4
  if raw_len.length ≠ 4 then .closed
  else
    let msg_len := bytesToLen raw_len
    if msg_len > MAX_MESSAGE_SIZE then .tooLarge msg_len
    else
      match recvLoop (stream.drop 4) msg_len [] with
      | none => .closed
      | some data =>
        match decode data with
        | some m => .msg m
        | none => .malformed

/-! ## Association-list lemmas -/

theorem dictLookup_mem {α β : Type} [DecidableEq α] {k : α} {v : β} :
    ∀ {l : List (α × β)}, dictLookup k l = some v → (k, v) ∈ l := by
  intro l
  induction l with
  | nil => intro h; simp [dictLookup] at h
  | cons e rest ih =>
    intro h
    simp only [dictLookup] at h
    by_cases hk : e.1 = k
    · simp only [hk, if_pos rfl] at h
      obtain ⟨k', v'⟩ := e
      simp_all
    · rw [if_neg hk] at h
      exact List.mem_cons_of_mem _ (ih h)

theorem mem_dictInsert {α β : Type} [DecidableEq α] {k : α} {v : β} {e : α × β} :
    ∀ {l : List (α × β)}, e ∈ dictInsert k v l → e = (k, v) ∨ e ∈ l := by
  intro l
  induction l with
  | nil => intro h; simp [dictInsert] at h; exact Or.inl h
  | cons e' rest ih =>
    intro h
    simp only [dictInsert] at h
    by_cases hk : e'.1 = k
    · rw [if_pos hk] at h
      rcases List.mem_cons.mp h with h | h
      · exact Or.inl h
      · exact Or.inr (List.mem_cons_of_mem _ h)
    · rw [if_neg hk] at h
      rcases List.mem_cons.mp h with h | h
      · exact Or.inr (h ▸ List.mem_cons_self _ _)
      · rcases ih h with h | h
        · exact Or.inl h
        · exact Or.inr (List.mem_cons_of_mem _ h)

theorem mem_keys_dictInsert {α β : Type} [DecidableEq α] {k x : α} {v : β} :
    ∀ {l : List (α × β)}, x ∈ (dictInsert k v l).map Prod.fst →
      x = k ∨ x ∈ l.map Prod.fst := by
  intro l h
  rcases List.mem_map.mp h with ⟨e, he, rfl⟩
  rcases mem_dictInsert he with rfl | he'
  · exact Or.inl rfl
  · exact Or.inr (List.mem_map_of_mem _ he')

theorem keys_nodup_dictInsert {α β : Type} [DecidableEq α] (k : α) (v : β) :
    ∀ {l : List (α × β)}, (l.map Prod.fst).Nodup →
      ((dictInsert k v l).map Prod.fst).Nodup := by
  intro l
  induction l with
  | nil => intro _; simp [dictInsert]
  | cons e rest ih =>
    intro h
    simp only [List.map_cons, List.nodup_cons] at h
    simp only [dictInsert]
    by_cases hk : e.1 = k
    · rw [if_pos hk]
      simp only [List.map_cons, List.nodup_cons]
      exact ⟨hk ▸ h.1, h.2⟩
    · rw [if_neg hk]
      simp only [List.map_cons, List.nodup_cons]
      refine ⟨fun hmem => ?_, ih h.2⟩
      rcases mem_keys_dictInsert hmem with rfl | hmem'
      · exact hk rfl
      · exact h.1 hmem'

theorem dictLookup_dictInsert_self {α β : Type} [DecidableEq α] (k : α) (v : β) :
    ∀ (l : List (α × β)), dictLookup k (dictInsert k v l) = some v := by
  intro l
  induction l with
  | nil => simp [dictInsert, dictLookup]
  | cons e rest ih =>
    simp only [dictInsert]
    by_cases hk : e.1 = k
    · rw [if_pos hk]; simp [dictLookup]
    · rw [if_neg hk]
      simp only [dictLookup, if_neg hk]
      exact ih

theorem dictLookup_dictDelete_self {α β : Type} [DecidableEq α] (k : α) :
    ∀ (l : List (α × β)), dictLookup k (dictDelete k l) = none := by
  intro l
  induction l with
  | nil => simp [dictDelete, dictLookup]
  | cons e rest ih =>
    simp only [dictDelete, List.filter_cons]
    by_cases hk : e.1 = k
    · simp only [hk]; simpa [dictDelete] using ih
    · simp only [decide_eq_true_eq, hk, not_false_iff, if_pos]
      simpa [dictLookup, hk, dictDelete] using ih

theorem mem_dictDelete {α β : Type} [DecidableEq α] {k : α} {e : α × β}
    {l : List (α × β)} (h : e ∈ dictDelete k l) : e ∈ l ∧ e.1 ≠ k := by
  have := List.mem_filter.mp h
  exact ⟨this.1, by simpa using this.2⟩

theorem keys_nodup_dictDelete {α β : Type} [DecidableEq α] (k : α)
    {l : List (α × β)} (h : (l.map Prod.fst).Nodup) :
    ((dictDelete k l).map Prod.fst).Nodup :=
  ((List.filter_sublist l).map Prod.fst).nodup h

theorem keys_nodup_filter {α β : Type} (p : α × β → Bool)
    {l : List (α × β)} (h : (l.map Prod.fst).Nodup) :
    ((l.filter p).map Prod.fst).Nodup :=
  ((List.filter_sublist l).map Prod.fst).nodup h

theorem dictLookup_bumpScore_self (pid : Nat) {pi : PlayerInfo} :
    ∀ {l : List (Nat × PlayerInfo)}, dictLookup pid l = some pi →
      dictLookup pid (bumpScore pid l) = some { pi with score := pi.score + 1 } := by
  intro l
  induction l with
  | nil => intro h; simp [dictLookup] at h
  | cons e rest ih =>
    intro h
    simp only [dictLookup] at h
    simp only [bumpScore]
    by_cases hk : e.1 = pid
    · rw [if_pos hk] at h
      obtain ⟨k, v⟩ := e
      simp only at hk
      subst hk
      simp only [if_pos rfl]
      simp only [dictLookup, if_pos rfl]
      simp_all
    · rw [if_neg hk] at h
      obtain ⟨k, v⟩ := e
      simp only at hk
      rw [if_neg hk]
      simp only [dictLookup, if_neg hk]
      exact ih h

/-! ## Board access lemmas -/

theorem getD_set_self {α : Type} (d a : α) :
    ∀ (l : List α) (i : Nat), i < l.length → (l.set i a).getD i d = a := by
  intro l
  induction l with
  | nil => intro i h; simp at h
  | cons x xs ih =>
    intro i h
    cases i with
    | zero => simp [List.set, List.getD]
    | succ n =>
      simp only [List.set, List.length_cons] at *
      have := ih n (Nat.lt_of_succ_lt_succ h)
      simpa [List.getD] using this

theorem getD_set_ne {α : Type} (d a : α) :
    ∀ (l : List α) (i j : Nat), i ≠ j → (l.set i a).getD j d = l.getD j d := by
  intro l
  induction l with
  | nil => intro i j _; simp [List.set]
  | cons x xs ih =>
    intro i j hne
    cases i with
    | zero =>
      cases j with
      | zero => exact absurd rfl hne
      | succ m => simp [List.set, List.getD]
    | succ n =>
      cases j with
      | zero => simp [List.set, List.getD]
      | succ m =>
        simp only [List.set]
        have := ih n m (fun h => hne (h ▸ rfl))
        simpa [List.getD] using this

theorem mem_of_mem_set {α : Type} {a x : α} :
    ∀ {l : List α} {i : Nat}, x ∈ l.set i a → x = a ∨ x ∈ l := by
  intro l
  induction l with
  | nil => intro i h; simp [List.set] at h
  | cons y ys ih =>
    intro i h
    cases i with
    | zero =>
      rcases List.mem_cons.mp h with h | h
      · exact Or.inl h
      · exact Or.inr (List.mem_cons_of_mem _ h)
    | succ n =>
      rcases List.mem_cons.mp h with h | h
      · exact Or.inr (h ▸ List.mem_cons_self _ _)
      · rcases ih h with h | h
        · exact Or.inl h
        · exact Or.inr (List.mem_cons_of_mem _ h)

theorem getD_mem {α : Type} (d : α) :
    ∀ (l : List α) (i : Nat), i < l.length → l.getD i d ∈ l := by
  intro l
  induction l with
  | nil => intro i h; simp at h
  | cons x xs ih =>
    intro i h
    cases i with
    | zero => simp [List.getD]
    | succ n =>
      simp only [List.length_cons] at h
      have := ih n (Nat.lt_of_succ_lt_succ h)
      exact List.mem_cons_of_mem _ (by simpa [List.getD] using this)

/-- Writing one cell leaves every other cell unchanged. -/
theorem boardGet_boardSet_ne {b : List (List (Option Nat))} {r c r' c' : Nat}
    (v : Option Nat) (hne : (r, c) ≠ (r', c'))
    (hlen : b.length = 8) (hr : r < 8) :
    boardGet (boardSet b r c v) r' c' = boardGet b r' c' := by
  unfold boardGet boardSet
  by_cases hrow : r = r'
  · subst hrow
    have hc : c ≠ c' := fun h => hne (by rw [h])
    rw [getD_set_self [] _ b r (by omega)]
    rw [getD_set_ne _ _ _ _ _ hc]
  · rw [getD_set_ne _ _ _ _ _ hrow]

/-- Writing a cell in range makes that cell hold the written value. -/
theorem boardGet_boardSet_self {b : List (List (Option Nat))} {r c : Nat}
    (v : Option Nat) (hlen : b.length = 8)
    (hrows : ∀ row ∈ b, row.length = 8) (hr : r < 8) (hc : c < 8) :
    boardGet (boardSet b r c v) r c = v := by
  unfold boardGet boardSet
  rw [getD_set_self [] _ b r (by omega)]
  have hmem : b.getD r [] ∈ b := getD_mem [] b r (by omega)
  exact getD_set_self none v _ c (by rw [hrows _ hmem]; omega)

/-! ## The state invariant -/

/-- Coordinate validity, as checked by `handle_start_drawing`. -/
def inRange (rc : Int × Int) : Prop :=
  0 ≤ rc.1 ∧ rc.1 < 8 ∧ 0 ≤ rc.2 ∧ rc.2 < 8

instance : DecidablePred inRange := fun rc => by unfold inRange; infer_instance

/-- The board is an 8×8 grid. -/
def boardShape (b : List (List (Option Nat))) : Prop :=
  b.length = 8 ∧ ∀ row ∈ b, row.length = 8

/-- The inductive state invariant: active-square keys are unique, every
active square has valid coordinates and an empty board cell, and the
board is an 8×8 grid. -/
def WF (s : GameState) : Prop :=
  (s.active_squares.map Prod.fst).Nodup ∧
  (∀ e ∈ s.active_squares,
      inRange e.1 ∧ boardGet s.board e.1.1.toNat e.1.2.toNat = none) ∧
  boardShape s.board

instance : DecidablePred boardShape := fun b => by
  unfold boardShape; infer_instance

instance (s : GameState) : Decidable (WF s) := by
  unfold WF; infer_instance

theorem wf_of_board_active_eq {s s' : GameState}
    (hb : s'.board = s.board) (ha : s'.active_squares = s.active_squares)
    (hwf : WF s) : WF s' := by
  unfold WF at *
  rw [hb, ha]
  exact hwf

theorem handle_join_board_active (s : GameState) (conn : Nat) (name : String) :
    (handle_join s conn name).2.board = s.board ∧
    (handle_join s conn name).2.active_squares = s.active_squares := by
  unfold handle_join
  split
  · exact ⟨rfl, rfl⟩
  · split
    · exact ⟨rfl, rfl⟩
    · exact ⟨rfl, rfl⟩

theorem handle_drawing_data_state (s : GameState) (conn : Nat)
    (row col : Option Int) : (handle_drawing_data s conn row col).2 = s := by
  unfold handle_drawing_data
  repeat (first | rfl | split)

theorem handle_start_drawing_cases (s : GameState) (conn : Nat)
    (row col : Option Int) :
    (handle_start_drawing s conn row col).2 = s ∨
    ∃ r c pid, row = some r ∧ col = some c ∧ inRange (r, c) ∧
      boardGet s.board r.toNat c.toNat = none ∧
      (handle_start_drawing s conn row col).2 =
        { s with active_squares := dictInsert (r, c) pid s.active_squares } := by
  unfold handle_start_drawing
  split
  · exact Or.inl rfl
  · split
    · rename_i r c
      split
      · rename_i hrange
        split
        · exact Or.inl rfl
        · rename_i hempty
          have hb : boardGet s.board r.toNat c.toNat = none :=
            Option.not_isSome_iff_eq_none.mp (by simpa using hempty)
          split
          · split
            · exact Or.inl rfl
            · exact Or.inr ⟨r, c, _, rfl, rfl, hrange, hb, rfl⟩
          · exact Or.inr ⟨r, c, _, rfl, rfl, hrange, hb, rfl⟩
      · exact Or.inl rfl
    · exact Or.inl rfl

theorem handle_finish_drawing_cases (s : GameState) (conn : Nat)
    (row col : Option Int) (cov : Option Rat) :
    (handle_finish_drawing s conn row col cov).2 = s ∨
    (∃ r c pid, row = some r ∧ col = some c ∧
       dictLookup (r, c) s.active_squares = some pid ∧
       (handle_finish_drawing s conn row col cov).2 =
         { s with active_squares := dictDelete (r, c) s.active_squares }) ∨
    (∃ r c pid g w, row = some r ∧ col = some c ∧
       dictLookup (r, c) s.active_squares = some pid ∧
       (handle_finish_drawing s conn row col cov).2 =
         { s with active_squares := dictDelete (r, c) s.active_squares,
                  board := boardSet s.board r.toNat c.toNat (some pid),
                  players := bumpScore pid s.players,
                  game_ended := g, winner := w }) := by
  unfold handle_finish_drawing
  split
  · exact Or.inl rfl
  · rename_i ci _
    split
    · rename_i r c
      split
      · exact Or.inl rfl
      · rename_i p hlk
        split
        · exact Or.inl rfl
        · rename_i hauth
          have hp : p = ci.player_id := not_not.mp (by simpa using hauth)
          subst hp
          dsimp only
          split
          · split
            · exact Or.inr (Or.inr ⟨r, c, _, true, _, rfl, rfl, hlk, rfl⟩)
            · exact Or.inr (Or.inr
                ⟨r, c, _, s.game_ended, s.winner, rfl, rfl, hlk, rfl⟩)
          · exact Or.inr (Or.inl ⟨r, c, _, rfl, rfl, hlk, rfl⟩)
    · exact Or.inl rfl

theorem toNat_pair_ne {a b : Int × Int} (ha : inRange a) (hb : inRange b)
    (hne : b ≠ a) : (b.1.toNat, b.2.toNat) ≠ (a.1.toNat, a.2.toNat) := by
  intro h
  apply hne
  obtain ⟨h1, h2⟩ := Prod.mk.injEq _ _ _ _ ▸ h
  obtain ⟨ha1, _, ha2, _⟩ := ha
  obtain ⟨hb1, _, hb2, _⟩ := hb
  have : b.1 = a.1 := by omega
  have : b.2 = a.2 := by omega
  exact Prod.ext (by omega) (by omega)

/-- The invariant is preserved by every operation. -/
theorem wf_applyOp {s : GameState} (op : Op) (hwf : WF s) :
    WF (applyOp s op) := by
  obtain ⟨hnd, hact, hshape⟩ := hwf
  cases op with
  | join conn name =>
    show WF (handle_join s conn name).2
    exact wf_of_board_active_eq (handle_join_board_active s conn name).1
      (handle_join_board_active s conn name).2 ⟨hnd, hact, hshape⟩
  | drawingData conn row col =>
    show WF (handle_drawing_data s conn row col).2
    exact wf_of_board_active_eq
      (by rw [handle_drawing_data_state])
      (by rw [handle_drawing_data_state]) ⟨hnd, hact, hshape⟩
  | startDrawing conn row col =>
    rcases handle_start_drawing_cases s conn row col with h | ⟨r, c, pid, _, _, hrange, hempty, h⟩
    · show WF (handle_start_drawing s conn row col).2
      exact wf_of_board_active_eq (by rw [h]) (by rw [h]) ⟨hnd, hact, hshape⟩
    · show WF (handle_start_drawing s conn row col).2
      rw [h]
      refine ⟨keys_nodup_dictInsert _ _ hnd, ?_, hshape⟩
      intro e he
      rcases mem_dictInsert he with rfl | he'
      · exact ⟨hrange, hempty⟩
      · exact hact e he'
  | finishDrawing conn row col cov =>
    rcases handle_finish_drawing_cases s conn row col cov with
      h | ⟨r, c, pid, _, _, hlk, h⟩ | ⟨r, c, pid, g, w, _, _, hlk, h⟩
    · show WF (handle_finish_drawing s conn row col cov).2
      exact wf_of_board_active_eq (by rw [h]) (by rw [h]) ⟨hnd, hact, hshape⟩
    · show WF (handle_finish_drawing s conn row col cov).2
      rw [h]
      refine ⟨keys_nodup_dictDelete _ hnd, ?_, hshape⟩
      intro e he
      exact hact e (mem_dictDelete he).1
    · show WF (handle_finish_drawing s conn row col cov).2
      rw [h]
      have hmem : ((r, c), pid) ∈ s.active_squares := dictLookup_mem hlk
      have hrc := hact _ hmem
      have hr0 : (0 : Int) ≤ r := hrc.1.1
      have hr8 : r < 8 := hrc.1.2.1
      refine ⟨keys_nodup_dictDelete _ hnd, ?_, ?_⟩
      · intro e he
        obtain ⟨he', hne⟩ := mem_dictDelete he
        have herange := (hact e he').1
        refine ⟨herange, ?_⟩
        rw [boardGet_boardSet_ne (some pid)
          (toNat_pair_ne herange hrc.1 (Ne.symm hne)) hshape.1
          (show r.toNat < 8 by omega)]
        exact (hact e he').2
      · refine ⟨by rw [boardSet, List.length_set]; exact hshape.1, ?_⟩
        intro rowl hrow
        rcases mem_of_mem_set hrow with rfl | hrow'
        · rw [List.length_set]
          exact hshape.2 _ (getD_mem [] s.board r.toNat
            (by rw [hshape.1]; omega))
        · exact hshape.2 _ hrow'
  | disconnect conn =>
    show WF (disconnect_client s conn)
    unfold disconnect_client
    split
    · exact ⟨hnd, hact, hshape⟩
    · refine ⟨keys_nodup_filter _ hnd, ?_, hshape⟩
      intro e he
      exact hact e (List.mem_filter.mp he).1

theorem wf_initState : WF initState := by
  refine ⟨List.nodup_nil, ?_, ?_⟩
  · intro e he; simp [initState] at he
  · constructor
    · rfl
    · intro row hrow
      simp only [initState] at hrow
      rw [List.eq_of_mem_replicate hrow]
      rfl

theorem wf_runOps (ops : List Op) :
    ∀ (s : GameState), WF s → WF (runOps s ops) := by
  induction ops with
  | nil => intro s h; exact h
  | cons op rest ih =>
    intro s h
    exact ih _ (wf_applyOp op h)

theorem wf_reachable {s : GameState} (hs : Reachable s) : WF s := by
  obtain ⟨ops, rfl⟩ := hs
  exact wf_runOps ops initState wf_initState

/-! ## C1: cell ownership is permanent -/

theorem disconnect_client_board (s : GameState) (conn : Nat) :
    (disconnect_client s conn).board = s.board := by
  unfold disconnect_client
  split <;> rfl

theorem handle_start_drawing_board (s : GameState) (conn : Nat)
    (row col : Option Int) :
    (handle_start_drawing s conn row col).2.board = s.board := by
  rcases handle_start_drawing_cases s conn row col with h | ⟨_, _, _, _, _, _, _, h⟩ <;>
    rw [h]

/-- One operation never overwrites an owned cell. -/
theorem boardGet_applyOp {s : GameState} (op : Op) (hwf : WF s)
    {r c pid : Nat} (h : boardGet s.board r c = some pid) :
    boardGet (applyOp s op).board r c = some pid := by
  obtain ⟨hnd, hact, hshape⟩ := hwf
  cases op with
  | join conn name =>
    show boardGet (handle_join s conn name).2.board r c = some pid
    rw [(handle_join_board_active s conn name).1]
    exact h
  | drawingData conn row col =>
    show boardGet (handle_drawing_data s conn row col).2.board r c = some pid
    rw [handle_drawing_data_state]
    exact h
  | startDrawing conn row col =>
    show boardGet (handle_start_drawing s conn row col).2.board r c = some pid
    rw [handle_start_drawing_board]
    exact h
  | disconnect conn =>
    show boardGet (disconnect_client s conn).board r c = some pid
    rw [disconnect_client_board]
    exact h
  | finishDrawing conn row col cov =>
    show boardGet (handle_finish_drawing s conn row col cov).2.board r c = some pid
    rcases handle_finish_drawing_cases s conn row col cov with
      h' | ⟨r0, c0, pid0, _, _, hlk, h'⟩ | ⟨r0, c0, pid0, g, w, _, _, hlk, h'⟩
    · rw [h']; exact h
    · rw [h']; exact h
    · rw [h']
      have hmem := dictLookup_mem hlk
      have hrc := hact _ hmem
      have hr0 : (0 : Int) ≤ r0 := hrc.1.1
      have hr8 : r0 < 8 := hrc.1.2.1
      by_cases heq : (r0.toNat, c0.toNat) = (r, c)
      · exfalso
        have hempty := hrc.2
        rw [show ((r0, c0), pid0).1.1.toNat = r from congrArg Prod.fst heq,
            show ((r0, c0), pid0).1.2.toNat = c from congrArg Prod.snd heq] at hempty
        rw [hempty] at h
        exact Option.noConfusion h
      · rw [boardGet_boardSet_ne (some pid0) heq hshape.1
          (show r0.toNat < 8 by omega)]
        exact h

theorem boardGet_runOps (ops : List Op) :
    ∀ {s : GameState}, WF s → ∀ {r c pid : Nat},
      boardGet s.board r c = some pid →
      boardGet (runOps s ops).board r c = some pid := by
  induction ops with
  | nil => intro s _ r c pid h; exact h
  | cons op rest ih =>
    intro s hwf r c pid h
    exact ih (wf_applyOp op hwf) (boardGet_applyOp op hwf h)

/-- **C1**: cell ownership is permanent.  For every reachable state and
every further sequence of operations (join, start-drawing,
submit-drawing-data, finish-drawing, disconnect), a board cell that
holds a player identifier still holds that identifier afterwards — it
never changes owner and never reverts to empty (so a cell transitions
from empty to owned at most once). -/
theorem cell_ownership_permanent {s : GameState} (hs : Reachable s)
    (ops : List Op) {r c pid : Nat} (h : boardGet s.board r c = some pid) :
    boardGet (runOps s ops).board r c = some pid :=
  boardGet_runOps ops (wf_reachable hs) h

/-- A reachable state in which player 1 has captured cell (2,3). -/
def capOps : List Op :=
  [.join 0 "alice", .startDrawing 0 (some 2) (some 3),
   .finishDrawing 0 (some 2) (some 3) (some 75)]

/-- Witness for C1: after capturing (2,3), a further disconnect leaves
the cell owned by player 1. -/
theorem cell_ownership_permanent_witness :
    boardGet (runOps (runOps initState capOps) [.disconnect 0]).board 2 3 =
      some 1 :=
  cell_ownership_permanent ⟨capOps, rfl⟩ [.disconnect 0] (by decide)

/-! ## C2: active squares exclude owned cells -/

/-- **C2**: mutual exclusion on active squares.  In every reachable state
the active-square map binds each coordinate to exactly one player (its
keys are pairwise distinct), and every coordinate being drawn on is
empty (not owned) in the board; hence no operation produces a state
where a coordinate is simultaneously active and owned. -/
theorem active_squares_mutual_exclusion {s : GameState} (hs : Reachable s) :
    (s.active_squares.map Prod.fst).Nodup ∧
    s.active_squares.all
      (fun e => boardGet s.board e.1.1.toNat e.1.2.toNat == none) = true := by
  obtain ⟨hnd, hact, _⟩ := wf_reachable hs
  refine ⟨hnd, ?_⟩
  rw [List.all_eq_true]
  intro e he
  simpa using (hact e he).2

/-- A reachable state in which player 1 is drawing in (2,3). -/
def lockOps : List Op :=
  [.join 0 "alice", .startDrawing 0 (some 2) (some 3)]

/-- Witness for C2 at a state with a non-empty active-square map. -/
theorem active_squares_mutual_exclusion_witness :
    ((runOps initState lockOps).active_squares.map Prod.fst).Nodup ∧
    (runOps initState lockOps).active_squares.all
      (fun e => boardGet (runOps initState lockOps).board
        e.1.1.toNat e.1.2.toNat == none) = true :=
  active_squares_mutual_exclusion ⟨lockOps, rfl⟩

/-! ## C3: finish-drawing postcondition -/

/-- **C3**: when the caller holds the active square (r,c), finish-drawing
removes the active-square entry unconditionally; with coverage at least
50 it marks the cell owned by the caller and increments exactly the
caller's score by one; with coverage below 50 the board and all scores
are untouched and the response is square_failed. -/
theorem finish_drawing_postcondition (s : GameState) (conn : Nat)
    (ci : ClientInfo) (r c : Int) (cov : Rat) (pi : PlayerInfo) (hwf : WF s)
    (hcl : dictLookup conn s.clients = some ci)
    (hact : dictLookup (r, c) s.active_squares = some ci.player_id)
    (hp : dictLookup ci.player_id s.players = some pi) :
    dictLookup (r, c)
      (handle_finish_drawing s conn (some r) (some c) (some cov)).2.active_squares
      = none ∧
    (50 ≤ cov →
      boardGet (handle_finish_drawing s conn (some r) (some c) (some cov)).2.board
          r.toNat c.toNat = some ci.player_id ∧
      dictLookup ci.player_id
          (handle_finish_drawing s conn (some r) (some c) (some cov)).2.players
        = some { pi with score := pi.score + 1 }) ∧
    (cov < 50 →
      (handle_finish_drawing s conn (some r) (some c) (some cov)).2.board = s.board ∧
      (handle_finish_drawing s conn (some r) (some c) (some cov)).2.players = s.players ∧
      (handle_finish_drawing s conn (some r) (some c) (some cov)).1 =
        .squareFailed r c ci.player_id cov) := by
  obtain ⟨hnd, hactwf, hshape⟩ := hwf
  have hmem := dictLookup_mem hact
  have hrc := hactwf _ hmem
  have hr0 : (0 : Int) ≤ r := hrc.1.1
  have hr8 : r < 8 := hrc.1.2.1
  have hc0 : (0 : Int) ≤ c := hrc.1.2.2.1
  have hc8 : c < 8 := hrc.1.2.2.2
  have hne : ¬ (ci.player_id ≠ ci.player_id) := fun hx => hx rfl
  simp only [handle_finish_drawing, hcl, hact, hne, ite_false, if_neg hne,
    Option.getD_some]
  by_cases h50 : (50 : Rat) ≤ cov
  · rw [if_pos h50]
    refine ⟨?_, fun _ => ⟨?_, ?_⟩, fun hlt => absurd h50 (not_le.mpr hlt)⟩
    · split <;> exact dictLookup_dictDelete_self _ _
    · split <;>
        exact boardGet_boardSet_self (some ci.player_id) hshape.1 hshape.2
          (by omega) (by omega)
    · split <;> exact dictLookup_bumpScore_self _ hp
  · rw [if_neg h50]
    exact ⟨dictLookup_dictDelete_self _ _,
      fun hge => absurd hge h50,
      fun _ => ⟨rfl, rfl, rfl⟩⟩

/-- Witness for C3: in the reachable locked state, finishing with
coverage 75 captures (2,3) for player 1 and bumps the score to 1. -/
theorem finish_drawing_postcondition_witness :
    boardGet (handle_finish_drawing (runOps initState lockOps) 0
        (some 2) (some 3) (some 75)).2.board 2 3 = some 1 ∧
    dictLookup 1 (handle_finish_drawing (runOps initState lockOps) 0
        (some 2) (some 3) (some 75)).2.players = some ⟨"alice", "red", 1⟩ ∧
    dictLookup ((2 : Int), (3 : Int))
      (handle_finish_drawing (runOps initState lockOps) 0
        (some 2) (some 3) (some 75)).2.active_squares = none := by
  have h := finish_drawing_postcondition (runOps initState lockOps) 0
    ⟨1, "alice", "red"⟩ 2 3 75 ⟨"alice", "red", 0⟩
    (by decide) (by decide) (by decide) (by decide)
  exact ⟨(h.2.1 (by norm_num)).1, (h.2.1 (by norm_num)).2, h.1⟩

/-! ## C10: omitted coverage defaults to 0 -/

/-- **C10**: a finish-drawing message without a coverage field is treated
as coverage 0, so when the caller holds the active square the result is
square_failed (never square_captured), the active entry is removed, and
board and scores are unchanged. -/
theorem finish_drawing_missing_coverage (s : GameState) (conn : Nat)
    (ci : ClientInfo) (r c : Int)
    (hcl : dictLookup conn s.clients = some ci)
    (hact : dictLookup (r, c) s.active_squares = some ci.player_id) :
    (handle_finish_drawing s conn (some r) (some c) none).1 =
      .squareFailed r c ci.player_id 0 ∧
    dictLookup (r, c)
      (handle_finish_drawing s conn (some r) (some c) none).2.active_squares
      = none ∧
    (handle_finish_drawing s conn (some r) (some c) none).2.board = s.board ∧
    (handle_finish_drawing s conn (some r) (some c) none).2.players = s.players := by
  have hne : ¬ (ci.player_id ≠ ci.player_id) := fun hx => hx rfl
  have h50 : ¬ ((50 : Rat) ≤ 0) := by norm_num
  simp only [handle_finish_drawing, hcl, hact, hne, ite_false, if_neg hne,
    Option.getD_none, if_neg h50]
  refine ⟨?_, dictLookup_dictDelete_self _ _, ?_, ?_⟩ <;> trivial

/-- Witness for C10: omitting coverage in the reachable locked state
fails the capture and leaves board and scores untouched. -/
theorem finish_drawing_missing_coverage_witness :
    (handle_finish_drawing (runOps initState lockOps) 0
        (some 2) (some 3) none).1 = .squareFailed 2 3 1 0 ∧
    dictLookup ((2 : Int), (3 : Int))
      (handle_finish_drawing (runOps initState lockOps) 0
        (some 2) (some 3) none).2.active_squares = none ∧
    (handle_finish_drawing (runOps initState lockOps) 0
        (some 2) (some 3) none).2.board = (runOps initState lockOps).board ∧
    (handle_finish_drawing (runOps initState lockOps) 0
        (some 2) (some 3) none).2.players = (runOps initState lockOps).players :=
  finish_drawing_missing_coverage (runOps initState lockOps) 0
    ⟨1, "alice", "red"⟩ 2 3 (by decide) (by decide)

/-! ## C4: game-logic errors do not mutate state -/

/-- The error responses (the game-logic errors listed by the spec —
invalid coordinates, square already owned, square locked by another
player, not authorized, game full, game ended — together with the
kindred not-connected and square-not-active errors). -/
def isGameLogicError : Resp → Bool
  | .errGameFull | .errGameEnded | .errNotConnected | .errInvalidCoords
  | .errSquareOwned | .errSquareLocked | .errNotActive
  | .errNotAuthorized => true
  | _ => false

theorem handle_join_error_pure (s : GameState) (conn : Nat) (name : String) :
    isGameLogicError (handle_join s conn name).1 = true →
      (handle_join s conn name).2 = s := by
  unfold handle_join
  split
  · intro _; rfl
  · split
    · intro _; rfl
    · intro h; simp [isGameLogicError] at h

theorem handle_start_drawing_error_pure (s : GameState) (conn : Nat)
    (row col : Option Int) :
    isGameLogicError (handle_start_drawing s conn row col).1 = true →
      (handle_start_drawing s conn row col).2 = s := by
  unfold handle_start_drawing
  repeat' split
  all_goals intro h
  all_goals first
    | rfl
    | simp [isGameLogicError] at h

theorem handle_finish_drawing_error_pure (s : GameState) (conn : Nat)
    (row col : Option Int) (cov : Option Rat) :
    isGameLogicError (handle_finish_drawing s conn row col cov).1 = true →
      (handle_finish_drawing s conn row col cov).2 = s := by
  unfold handle_finish_drawing
  split
  · intro _; rfl
  · split
    · split
      · intro _; rfl
      · split
        · intro _; rfl
        · dsimp only
          split
          · split
            · intro h; simp [isGameLogicError] at h
            · intro h; simp [isGameLogicError] at h
          · intro h; simp [isGameLogicError] at h
    · intro _; rfl

/-- **C4**: game-logic error atomicity.  Whenever join, start-drawing,
submit-drawing-data, or finish-drawing answers with a game-logic error,
the entire game state (board, active squares, player registry, flags,
next player id, connections) is exactly unchanged. -/
theorem game_logic_error_atomicity (s : GameState) (conn : Nat)
    (name : String) (row col : Option Int) (cov : Option Rat) :
    (isGameLogicError (handle_join s conn name).1 = true →
       (handle_join s conn name).2 = s) ∧
    (isGameLogicError (handle_start_drawing s conn row col).1 = true →
       (handle_start_drawing s conn row col).2 = s) ∧
    (isGameLogicError (handle_drawing_data s conn row col).1 = true →
       (handle_drawing_data s conn row col).2 = s) ∧
    (isGameLogicError (handle_finish_drawing s conn row col cov).1 = true →
       (handle_finish_drawing s conn row col cov).2 = s) :=
  ⟨handle_join_error_pure s conn name,
   handle_start_drawing_error_pure s conn row col,
   fun _ => handle_drawing_data_state s conn row col,
   handle_finish_drawing_error_pure s conn row col cov⟩

/-- Eight distinct connections join, filling the game. -/
def full8Ops : List Op :=
  [.join 0 "p0", .join 1 "p1", .join 2 "p2", .join 3 "p3",
   .join 4 "p4", .join 5 "p5", .join 6 "p6", .join 7 "p7"]

/-- Witness for C4: a ninth join on a full game is a game-logic error
and mutates nothing. -/
theorem game_logic_error_atomicity_witness :
    isGameLogicError (handle_join (runOps initState full8Ops) 8 "p8").1
      = true ∧
    (handle_join (runOps initState full8Ops) 8 "p8").2 =
      runOps initState full8Ops :=
  ⟨by decide,
   (game_logic_error_atomicity (runOps initState full8Ops) 8 "p8"
     none none none).1 (by decide)⟩

/-! ## C7: the join contract -/

/-- Reduction of a successful join to its explicit result state. -/
theorem handle_join_success_red (s : GameState) (conn : Nat) (name : String)
    (hlt : s.clients.length < 8) (hend : s.game_ended = false) :
    handle_join s conn name =
      (.joinSuccess s.next_player_id
         (player_colors.getD (s.clients.length % player_colors.length) ""),
       { s with
          clients := dictInsert conn
            ⟨s.next_player_id, name,
             player_colors.getD (s.clients.length % player_colors.length) ""⟩
            s.clients,
          players := dictInsert s.next_player_id
            ⟨name,
             player_colors.getD (s.clients.length % player_colors.length) "",
             0⟩ s.players,
          next_player_id := s.next_player_id + 1,
          game_started :=
            if (dictInsert conn
                  ⟨s.next_player_id, name,
                   player_colors.getD (s.clients.length % player_colors.length)
                     ""⟩ s.clients).length = 1
            then true else s.game_started }) := by
  unfold handle_join
  rw [if_neg (not_le.mpr hlt), if_neg (by simp [hend])]

/-- **C7**: join returns game-full when 8 players are connected and
game-ended when the game has ended (state unchanged in both cases);
otherwise it registers the joining connection under the next player id,
with the palette color at index (connected count mod palette size) and
score 0, increments the next player id, and the started flag is set
exactly when the joiner is the (only) first connected player. -/
theorem join_contract (s : GameState) (conn : Nat) (name : String) :
    (8 ≤ s.clients.length → handle_join s conn name = (.errGameFull, s)) ∧
    (s.clients.length < 8 → s.game_ended = true →
       handle_join s conn name = (.errGameEnded, s)) ∧
    (s.clients.length < 8 → s.game_ended = false →
       (handle_join s conn name).1 = .joinSuccess s.next_player_id
           (player_colors.getD (s.clients.length % player_colors.length) "") ∧
       (handle_join s conn name).2.next_player_id = s.next_player_id + 1 ∧
       dictLookup conn (handle_join s conn name).2.clients =
         some ⟨s.next_player_id, name,
               player_colors.getD (s.clients.length % player_colors.length) ""⟩ ∧
       dictLookup s.next_player_id (handle_join s conn name).2.players =
         some ⟨name,
               player_colors.getD (s.clients.length % player_colors.length) "",
               0⟩ ∧
       (handle_join s conn name).2.game_started =
         (decide ((handle_join s conn name).2.clients.length = 1) ||
            s.game_started)) := by
  refine ⟨fun hfull => ?_, fun hlt hend => ?_, fun hlt hend => ?_⟩
  · unfold handle_join
    rw [if_pos hfull]
  · unfold handle_join
    rw [if_neg (not_le.mpr hlt), if_pos hend]
  · have hred := handle_join_success_red s conn name hlt hend
    rw [hred]
    refine ⟨rfl, rfl, dictLookup_dictInsert_self _ _ _,
      dictLookup_dictInsert_self _ _ _, ?_⟩
    by_cases h1 :
        (dictInsert conn
          (⟨s.next_player_id, name,
            player_colors.getD (s.clients.length % player_colors.length) ""⟩ :
            ClientInfo) s.clients).length = 1
    · simp [h1]
    · simp [h1]

/-- Witness for C7: the first join on a fresh server registers player 1
with the first palette color and starts the game. -/
theorem join_contract_witness :
    (handle_join initState 0 "alice").1 = .joinSuccess 1 "red" ∧
    (handle_join initState 0 "alice").2.next_player_id = 2 ∧
    dictLookup 0 (handle_join initState 0 "alice").2.clients =
      some ⟨1, "alice", "red"⟩ ∧
    dictLookup 1 (handle_join initState 0 "alice").2.players =
      some ⟨"alice", "red", 0⟩ ∧
    (handle_join initState 0 "alice").2.game_started =
      (decide ((handle_join initState 0 "alice").2.clients.length = 1) ||
         initState.game_started) :=
  (join_contract initState 0 "alice").2.2 (by decide) (by decide)

/-! ## C8: winner determination -/

theorem fold_score_seed (players : List (Nat × PlayerInfo)) :
    ∀ b : Nat, b ≤ players.foldl (fun acc x => max acc x.2.score) b := by
  induction players with
  | nil => intro b; exact le_refl b
  | cons e rest ih =>
    intro b
    exact le_trans (le_max_left b e.2.score) (ih (max b e.2.score))

theorem score_le_fold {e : Nat × PlayerInfo} :
    ∀ {players : List (Nat × PlayerInfo)}, e ∈ players → ∀ b : Nat,
      e.2.score ≤ players.foldl (fun acc x => max acc x.2.score) b := by
  intro players
  induction players with
  | nil => intro h; cases h
  | cons x rest ih =>
    intro h b
    rcases List.mem_cons.mp h with rfl | h'
    · exact le_trans (le_max_right b e.2.score) (fold_score_seed rest _)
    · exact ih h' _

theorem fold_score_le {m : Nat} :
    ∀ {players : List (Nat × PlayerInfo)},
      (∀ x ∈ players, x.2.score ≤ m) → ∀ b : Nat, b ≤ m →
      players.foldl (fun acc x => max acc x.2.score) b ≤ m := by
  intro players
  induction players with
  | nil => intro _ b hb; exact hb
  | cons x rest ih =>
    intro hall b hb
    exact ih (fun a ha => hall a (List.mem_cons_of_mem _ ha))
      (max b x.2.score)
      (max_le hb (hall x (List.mem_cons_self x rest)))

theorem nodup_keys_val_unique {α β : Type} [DecidableEq α] {k : α} {v v' : β} :
    ∀ {l : List (α × β)}, (l.map Prod.fst).Nodup →
      (k, v) ∈ l → (k, v') ∈ l → v = v' := by
  intro l
  induction l with
  | nil => intro _ h; cases h
  | cons e rest ih =>
    intro hnd h1 h2
    simp only [List.map_cons, List.nodup_cons] at hnd
    rcases List.mem_cons.mp h1 with heq1 | h1'
    · rcases List.mem_cons.mp h2 with heq2 | h2'
      · rw [← heq2] at heq1
        exact (Prod.mk.injEq _ _ _ _ ▸ heq1).2
      · exfalso
        apply hnd.1
        have hk : k ∈ List.map Prod.fst rest := List.mem_map_of_mem Prod.fst h2'
        rw [← heq1]
        exact hk
    · rcases List.mem_cons.mp h2 with heq2 | h2'
      · exfalso
        apply hnd.1
        have hk : k ∈ List.map Prod.fst rest := List.mem_map_of_mem Prod.fst h1'
        rw [← heq2]
        exact hk
      · exact ih hnd.2 h1' h2'

theorem eq_singleton_of_all_eq {α : Type} {a : α} :
    ∀ {l : List α}, a ∈ l → (∀ x ∈ l, x = a) → l.Nodup → l = [a] := by
  intro l
  induction l with
  | nil => intro h; cases h
  | cons x xs _ =>
    intro _ hall hnd
    have hx : x = a := hall x (List.mem_cons_self x xs)
    subst hx
    cases xs with
    | nil => rfl
    | cons y ys =>
      exfalso
      rw [List.nodup_cons] at hnd
      have hy : y = x := hall y (List.mem_cons_of_mem _ (List.mem_cons_self y ys))
      exact hnd.1 (hy ▸ List.mem_cons_self y ys)

theorem two_mem_le_length {α : Type} {a b : α} {l : List α}
    (ha : a ∈ l) (hb : b ∈ l) (hne : a ≠ b) : 2 ≤ l.length := by
  induction l with
  | nil => cases ha
  | cons x xs ih =>
    rcases List.mem_cons.mp ha with rfl | ha'
    · rcases List.mem_cons.mp hb with rfl | hb'
      · exact absurd rfl hne
      · have := List.length_pos.mpr (List.ne_nil_of_mem hb')
        simp only [List.length_cons]
        omega
    · have := List.length_pos.mpr (List.ne_nil_of_mem ha')
      simp only [List.length_cons]
      omega

/-- **C8**: winner determination.  With unique player ids, if one player
strictly dominates every other score then calculate-winner names that
player; if two different players both attain the maximum score,
calculate-winner names nobody.  (When a capture fills the board,
finish-drawing stores exactly this value as the winner.) -/
theorem winner_determination (players : List (Nat × PlayerInfo))
    (hnodup : (players.map Prod.fst).Nodup) (pid : Nat) (pi : PlayerInfo)
    (p q : Nat × PlayerInfo) :
    ((pid, pi) ∈ players →
      (∀ x ∈ players, x.1 ≠ pid → x.2.score < pi.score) →
      (calculate_winner players).1 = some pid) ∧
    (p ∈ players → q ∈ players → p.1 ≠ q.1 →
      p.2.score = players.foldl (fun acc x => max acc x.2.score) 0 →
      q.2.score = players.foldl (fun acc x => max acc x.2.score) 0 →
      (calculate_winner players).1 = none) := by
  constructor
  · intro hmem hdom
    obtain ⟨p0, rest, rfl⟩ : ∃ p0 rest, players = p0 :: rest := by
      cases players with
      | nil => cases hmem
      | cons p0 rest => exact ⟨p0, rest, rfl⟩
    have hle : pi.score ≤ (p0 :: rest).foldl (fun acc x => max acc x.2.score) 0 :=
      score_le_fold (e := (pid, pi)) hmem 0
    have hge : (p0 :: rest).foldl (fun acc x => max acc x.2.score) 0 ≤ pi.score := by
      refine fold_score_le ?_ 0 (Nat.zero_le _)
      intro x hx
      by_cases hxk : x.1 = pid
      · have hx' : (pid, x.2) ∈ p0 :: rest := by
          rw [← hxk]
          exact hx
        rw [nodup_keys_val_unique hnodup hx' hmem]
      · exact le_of_lt (hdom x hx hxk)
    have hMeq : pi.score = (p0 :: rest).foldl (fun acc x => max acc x.2.score) 0 :=
      le_antisymm hle hge
    have hfilter :
        (p0 :: rest).filter
          (fun x => x.2.score =
            (p0 :: rest).foldl (fun acc x => max acc x.2.score) 0) = [(pid, pi)] := by
      refine eq_singleton_of_all_eq ?_ ?_ ?_
      · exact List.mem_filter.mpr ⟨hmem, by simpa using hMeq⟩
      · intro x hx
        obtain ⟨hxmem, hxpred⟩ := List.mem_filter.mp hx
        have hxscore : x.2.score =
            (p0 :: rest).foldl (fun acc x => max acc x.2.score) 0 := by
          simpa using hxpred
        by_cases hxk : x.1 = pid
        · have hx' : (pid, x.2) ∈ p0 :: rest := by
            rw [← hxk]
            exact hxmem
          have hv : x.2 = pi := nodup_keys_val_unique hnodup hx' hmem
          calc x = (x.1, x.2) := rfl
            _ = (pid, pi) := by rw [hxk, hv]
        · exfalso
          have := hdom x hxmem hxk
          omega
      · exact ((List.filter_sublist _).nodup) (hnodup.of_map _)
    unfold calculate_winner
    dsimp only
    rw [hfilter]
    rfl
  · intro hp hq hne hpM hqM
    obtain ⟨p0, rest, rfl⟩ : ∃ p0 rest, players = p0 :: rest := by
      cases players with
      | nil => cases hp
      | cons p0 rest => exact ⟨p0, rest, rfl⟩
    have hpf : p ∈ (p0 :: rest).filter
        (fun x => x.2.score =
          (p0 :: rest).foldl (fun acc x => max acc x.2.score) 0) :=
      List.mem_filter.mpr ⟨hp, by simpa using hpM⟩
    have hqf : q ∈ (p0 :: rest).filter
        (fun x => x.2.score =
          (p0 :: rest).foldl (fun acc x => max acc x.2.score) 0) :=
      List.mem_filter.mpr ⟨hq, by simpa using hqM⟩
    have hpq : p ≠ q := fun h => hne (h ▸ rfl)
    have h2 : 2 ≤ (((p0 :: rest).filter
        (fun x => x.2.score =
          (p0 :: rest).foldl (fun acc x => max acc x.2.score) 0)).map
            Prod.fst).length := by
      rw [List.length_map]
      exact two_mem_le_length hpf hqf hpq
    unfold calculate_winner
    dsimp only
    rcases hW : ((p0 :: rest).filter
        (fun x => x.2.score =
          (p0 :: rest).foldl (fun acc x => max acc x.2.score) 0)).map
            Prod.fst with _ | ⟨w, _ | ⟨w2, ws⟩⟩
    · rw [hW] at h2
      simp at h2
    · rw [hW] at h2
      simp at h2
    · rw [hW]

/-- Players with a unique maximum score. -/
def winPlayers : List (Nat × PlayerInfo) :=
  [(1, ⟨"alice", "red", 1⟩), (2, ⟨"bob", "blue", 3⟩)]

/-- Players tied for the maximum score. -/
def tiePlayers : List (Nat × PlayerInfo) :=
  [(1, ⟨"alice", "red", 2⟩), (2, ⟨"bob", "blue", 2⟩)]

/-- Witness for C8: a strict leader wins; a tie yields no winner. -/
theorem winner_determination_witness :
    (calculate_winner winPlayers).1 = some 2 ∧
    (calculate_winner tiePlayers).1 = none :=
  ⟨(winner_determination winPlayers (by decide) 2 ⟨"bob", "blue", 3⟩
      (1, ⟨"alice", "red", 1⟩) (1, ⟨"alice", "red", 1⟩)).1
      (by decide) (by decide),
   (winner_determination tiePlayers (by decide) 0 ⟨"", "", 0⟩
      (1, ⟨"alice", "red", 2⟩) (2, ⟨"bob", "blue", 2⟩)).2
      (by decide) (by decide) (by decide) (by decide) (by decide)⟩

/-! ## C5: a short header means connection-closed -/

/-- **C5**: the frame receiver reads exactly the 4 length-header bytes;
for every stream that delivers fewer than 4 bytes (the peer closed
before a full header arrived) the outcome is connection-closed — never a
decoded message and never a malformed-message error — for every
deserializer. -/
theorem recv_short_header_closed {α : Type} (decode : List Nat → Option α)
    (stream : List Nat) (h : stream.length < 4) :
    recv_message_frame decode stream = .closed := by
  unfold recv_message_frame
  have hlen : (stream.take 4).length ≠ 4 := by
    rw [List.length_take]
    omega
  rw [if_pos hlen]

/-- Witness for C5: a two-byte stream yields connection-closed. -/
theorem recv_short_header_closed_witness :
    recv_message_frame (fun _ => (none : Option Unit)) [7, 7] = .closed :=
  recv_short_header_closed (fun _ => (none : Option Unit)) [7, 7] (by decide)

/-! ## C6: the maximum-message-size limit -/

/-- True exactly on the oversize-frame outcome. -/
def isRecvTooLarge {α : Type} : RecvResult α → Bool
  | .tooLarge _ => true
  | _ => false

/-- **C6**: maximum-message-size enforcement.  The sender rejects every
payload longer than 4096 bytes writing nothing, and writes exactly the
length header plus payload otherwise (so payloads of at most 4096 bytes
are never rejected for size); the receiver rejects every frame whose
declared length exceeds 4096 before reading or deserializing any
payload (the outcome is independent of the deserializer), and never
raises the size error when the declared length is within the limit. -/
theorem max_message_size_enforced {α : Type} (decode : List Nat → Option α)
    (data stream : List Nat) :
    (data.length > MAX_MESSAGE_SIZE → send_message_frame data = .tooLarge) ∧
    (data.length ≤ MAX_MESSAGE_SIZE →
       send_message_frame data = .sent (lenBytes4 data.length ++ data)) ∧
    (4 ≤ stream.length → MAX_MESSAGE_SIZE < bytesToLen (stream.take 4) →
       recv_message_frame decode stream =
         .tooLarge (bytesToLen (stream.take 4))) ∧
    (4 ≤ stream.length → bytesToLen (stream.take 4) ≤ MAX_MESSAGE_SIZE →
       isRecvTooLarge (recv_message_frame decode stream) = false) := by
  refine ⟨fun hbig => ?_, fun hsmall => ?_, fun hs hbig => ?_, fun hs hsmall => ?_⟩
  · unfold send_message_frame
    rw [if_pos hbig]
  · unfold send_message_frame
    rw [if_neg (not_lt.mpr hsmall)]
  · unfold recv_message_frame
    have hlen : ¬ (stream.take 4).length ≠ 4 := by
      rw [List.length_take]
      omega
    rw [if_neg hlen, if_pos hbig]
  · unfold recv_message_frame
    have hlen : ¬ (stream.take 4).length ≠ 4 := by
      rw [List.length_take]
      omega
    rw [if_neg hlen, if_neg (not_lt.mpr hsmall)]
    split <;> [rfl; split <;> rfl]

/-- Witness for C6: a 4097-byte payload is rejected and a 2-byte payload
is framed; a frame declaring 5000 bytes (header 0,0,19,136) is rejected
as too large, a declared length of 2 is not. -/
theorem max_message_size_enforced_witness :
    send_message_frame (List.replicate 4097 0) = .tooLarge ∧
    send_message_frame [65, 66] = .sent [0, 0, 0, 2, 65, 66] ∧
    recv_message_frame (fun _ => (none : Option Unit)) [0, 0, 19, 136] =
      .tooLarge 5000 ∧
    isRecvTooLarge
      (recv_message_frame (fun _ => (none : Option Unit)) [0, 0, 0, 2, 65, 66])
      = false :=
  ⟨(max_message_size_enforced (fun _ => (none : Option Unit))
      (List.replicate 4097 0) []).1
      (by rw [List.length_replicate]; decide),
   (max_message_size_enforced (fun _ => (none : Option Unit))
      [65, 66] []).2.1 (by decide),
   (max_message_size_enforced (fun _ => (none : Option Unit))
      [] [0, 0, 19, 136]).2.2.1 (by decide) (by decide),
   (max_message_size_enforced (fun _ => (none : Option Unit))
      [] [0, 0, 0, 2, 65, 66]).2.2.2 (by decide) (by decide)⟩

/-! ## C9: color uniqueness -/

/-- The connection a client-driven operation arrives on. -/
def opConn : Op → Nat
  | .join conn _ => conn
  | .startDrawing conn _ _ => conn
  | .drawingData conn _ _ => conn
  | .finishDrawing conn _ _ _ => conn
  | .disconnect conn => conn

/-- Recognizer for join operations. -/
def isJoin : Op → Bool
  | .join _ _ => true
  | _ => false

/-- **C9 counterexample**: color uniqueness fails on the code.  After
join, join, disconnect-of-the-first, join — a legal sequence of Join and
Disconnect operations never exceeding 8 concurrent players — the two
connected players both hold the palette color at index 1 ("blue"),
because join assigns the color at index (current connected count mod 8)
and a disconnect lowers that count. -/
theorem color_uniqueness_cex :
    ¬ (((runOps initState
        [.join 0 "alice", .join 1 "bob", .disconnect 0,
         .join 2 "carol"]).clients.map (fun e => e.2.color)).Nodup) := by
  decide

/-- Inserting a fresh key appends the binding. -/
theorem dictInsert_append {α β : Type} [DecidableEq α] {k : α} (v : β) :
    ∀ {l : List (α × β)}, (∀ e ∈ l, e.1 ≠ k) →
      dictInsert k v l = l ++ [(k, v)] := by
  intro l
  induction l with
  | nil => intro _; rfl
  | cons e rest ih =>
    intro hfresh
    simp only [dictInsert]
    rw [if_neg (hfresh e (List.mem_cons_self e rest))]
    rw [ih (fun x hx => hfresh x (List.mem_cons_of_mem _ hx))]
    rfl

/-- Taking one more element appends the element at that index. -/
theorem take_succ_getD {α : Type} (d : α) :
    ∀ (l : List α) (i : Nat), i < l.length →
      l.take (i + 1) = l.take i ++ [l.getD i d] := by
  intro l
  induction l with
  | nil => intro i h; simp at h
  | cons x xs ih =>
    intro i h
    cases i with
    | zero => simp [List.getD]
    | succ n =>
      simp only [List.length_cons] at h
      have := ih n (Nat.lt_of_succ_lt_succ h)
      simp only [List.take_succ_cons, List.getD]
      rw [this]
      rfl

/-- Invariant of join-only runs: the connected clients wear the palette
colors in order, the game has not ended, and at most 8 are connected. -/
def joinPrefixInv (s : GameState) : Prop :=
  s.clients.map (fun e => e.2.color) = player_colors.take s.clients.length ∧
  s.game_ended = false ∧ s.clients.length ≤ 8

theorem join_only_inv :
    ∀ (ops : List Op) (s : GameState),
      (∀ op ∈ ops, isJoin op = true) →
      (ops.map opConn).Nodup →
      (∀ op ∈ ops, ∀ e ∈ s.clients, e.1 ≠ opConn op) →
      joinPrefixInv s → joinPrefixInv (runOps s ops) := by
  intro ops
  induction ops with
  | nil => intro s _ _ _ hinv; exact hinv
  | cons op rest ih =>
    intro s hjoin hnd hfresh hinv
    obtain ⟨conn, name, rfl⟩ : ∃ conn name, op = .join conn name := by
      have hj := hjoin op (List.mem_cons_self op rest)
      cases op with
      | join conn name => exact ⟨conn, name, rfl⟩
      | startDrawing a b c => simp [isJoin] at hj
      | drawingData a b c => simp [isJoin] at hj
      | finishDrawing a b c d => simp [isJoin] at hj
      | disconnect a => simp [isJoin] at hj
    simp only [List.map_cons, List.nodup_cons] at hnd
    show joinPrefixInv (runOps (handle_join s conn name).2 rest)
    by_cases hfull : 8 ≤ s.clients.length
    · have hst : (handle_join s conn name).2 = s :=
        congrArg Prod.snd ((join_contract s conn name).1 hfull)
      rw [hst]
      exact ih s (fun o ho => hjoin o (List.mem_cons_of_mem _ ho)) hnd.2
        (fun o ho => hfresh o (List.mem_cons_of_mem _ ho)) hinv
    · have hlt : s.clients.length < 8 := not_le.mp hfull
      have hconnfresh : ∀ e ∈ s.clients, e.1 ≠ conn := by
        intro e he
        exact hfresh (.join conn name) (List.mem_cons_self _ _) e he
      have hred := handle_join_success_red s conn name hlt hinv.2.1
      have hst : (handle_join s conn name).2.clients =
          s.clients ++ [(conn,
            ⟨s.next_player_id, name,
             player_colors.getD (s.clients.length % player_colors.length) ""⟩)] := by
        rw [hred]
        exact dictInsert_append _ hconnfresh
      have hclients :
          (handle_join s conn name).2.clients.map (fun e => e.2.color) =
            player_colors.take ((handle_join s conn name).2.clients.length) := by
        rw [hst, List.map_append, List.length_append]
        simp only [List.map_cons, List.map_nil, List.length_cons,
          List.length_nil]
        rw [hinv.1]
        have hmod : s.clients.length % player_colors.length =
            s.clients.length := Nat.mod_eq_of_lt (by simpa using hlt)
        rw [hmod]
        rw [← take_succ_getD "" player_colors s.clients.length
          (by simpa using hlt)]
      have hend : (handle_join s conn name).2.game_ended = false := by
        rw [hred]
        exact hinv.2.1
      have hlen : (handle_join s conn name).2.clients.length ≤ 8 := by
        rw [hst, List.length_append]
        simp only [List.length_cons, List.length_nil]
        omega
      refine ih (handle_join s conn name).2
        (fun o ho => hjoin o (List.mem_cons_of_mem _ ho)) hnd.2 ?_
        ⟨hclients, hend, hlen⟩
      intro o ho e he
      rw [hst] at he
      rcases List.mem_append.mp he with he' | he'
      · exact hfresh o (List.mem_cons_of_mem _ ho) e he'
      · have : e.1 = conn := by
          rcases List.mem_cons.mp he' with rfl | h0
          · rfl
          · cases h0
        rw [this]
        intro hcontra
        apply hnd.1
        show conn ∈ List.map opConn rest
        rw [hcontra]
        exact List.mem_map_of_mem opConn ho

/-- **C9 amended**: color uniqueness holds for join-only runs.  For
every sequence consisting only of Join operations from pairwise-distinct
connections (no Disconnect and no repeated joining connection), no two
currently-connected players share a color: colors are handed out
round-robin from the 8-color palette while the connected count only
grows.  (With a Disconnect — or a re-join of a live connection — in the
sequence, uniqueness fails, as the counterexample shows.) -/
theorem color_uniqueness_join_only (ops : List Op)
    (hjoin : ∀ op ∈ ops, isJoin op = true)
    (hconns : (ops.map opConn).Nodup) :
    ((runOps initState ops).clients.map (fun e => e.2.color)).Nodup := by
  have hinv := join_only_inv ops initState hjoin hconns
    (fun op _ e he => absurd he (by simp [initState]))
    ⟨rfl, rfl, by decide⟩
  rw [hinv.1]
  exact (List.take_sublist _ _).nodup (by decide)

/-- Witness for the amended C9: two distinct connections join and wear
distinct colors. -/
theorem color_uniqueness_join_only_witness :
    ((runOps initState [Op.join 0 "alice", Op.join 1 "bob"]).clients.map
      (fun e => e.2.color)).Nodup :=
  color_uniqueness_join_only [Op.join 0 "alice", Op.join 1 "bob"]
    (by decide) (by decide)

end Scribbo
